import Mathlib

/-!
Verification of the session orchestration and event-streaming engine
(`computer_use_demo`): the SQLite-backed chat store (`session_manager.py`),
the in-memory event broker (`event_broker.py`) and the run coordinator
(`session_runner.py`), shallowly embedded in Lean.

Stateful Python objects become explicit state types with pure transition
functions; `asyncio` lock-guarded critical sections become atomic steps of
an operation semantics (each Python method body runs under the object's
single lock, so a sequential interleaving of whole method bodies is the
exact semantics).
-/

namespace ComputerUseDemo

/-! Chat store (`session_manager.py`)

The store is a SQLite database with two tables:

* `sessions (id TEXT PRIMARY KEY, created_at TEXT NOT NULL)`
* `chat_history (id INTEGER PRIMARY KEY AUTOINCREMENT, session_id TEXT,
  role TEXT, content TEXT, created_at TEXT,
  FOREIGN KEY(session_id) REFERENCES sessions(id))`

We model a `chat_history` row verbatim, including its AUTOINCREMENT `id`
(a single global counter for the whole table, starting at 1).  The Python
code opens plain `sqlite3.connect` connections and never issues
`PRAGMA foreign_keys = ON`, so SQLite does *not* enforce the declared
foreign key: `INSERT INTO chat_history` succeeds for any `session_id`.
The embedding reflects that: `add_message` is total.  All store methods
run under `self._lock`, so they are atomic steps here.
-/

/-- One row of the `chat_history` table, with its AUTOINCREMENT `id`. -/
structure Row where
  id : Nat
  session_id : String
  role : String
  content : String
  created_at : String
  deriving Repr, DecidableEq

/-- The public record returned by `list_messages`
(`SELECT role, content, created_at`): the row `id` is not selected, and no
other sequence-like field exists in the projection. -/
structure ChatMessage where
  role : String
  content : String
  created_at : String
  deriving Repr, DecidableEq

/-- The SQLite database state behind `SessionManager`: the `sessions`
table, the `chat_history` table and the AUTOINCREMENT counter for
`chat_history.id` (next id to hand out; SQLite starts at 1). -/
structure ChatStore where
  sessions : List (String × String)
  rows : List Row
  next_id : Nat
  deriving Repr, DecidableEq

/-- The freshly initialized database: both tables empty
(`_initialize_db` only creates the tables). -/
def ChatStore.init : ChatStore := ⟨[], [], 1⟩

/-- Method `SessionManager.create`: inserts a `sessions` row.  The fresh uuid and
timestamp are inputs to the embedding. -/
def ChatStore.create (st : ChatStore) (sid created_at : String) : ChatStore :=
  { st with sessions := st.sessions ++ [(sid, created_at)] }

/-- Method `SessionManager.get`: `SELECT ... FROM sessions WHERE id = ?`. -/
def ChatStore.get (st : ChatStore) (sid : String) : Option (String × String) :=
  st.sessions.find? (fun s => s.1 = sid)

/-- Method `SessionManager.add_message`: inserts a `chat_history` row with the
next AUTOINCREMENT id.  No existence check on the session and no enforced
foreign key, so it succeeds for any `session_id`. -/
def ChatStore.add_message (st : ChatStore) (sid role content created_at : String) :
    ChatStore :=
  { st with
    rows := st.rows ++ [⟨st.next_id, sid, role, content, created_at⟩]
    next_id := st.next_id + 1 }

/-- Query `SELECT ... WHERE session_id = ? ORDER BY id ASC`: the session's rows
sorted by ascending `id`. -/
def ChatStore.list_rows (st : ChatStore) (sid : String) : List Row :=
  (st.rows.filter (fun r => r.session_id = sid)).insertionSort
    (fun a b => a.id ≤ b.id)

/-- Method `SessionManager.list_messages`: the session's rows in ascending `id`
order, projected to `(role, content, created_at)`. -/
def ChatStore.list_messages (st : ChatStore) (sid : String) : List ChatMessage :=
  (st.list_rows sid).map (fun r => ⟨r.role, r.content, r.created_at⟩)

/-- A mutating store operation, as issued by callers: `create` or
`add_message` (each runs atomically under the manager's lock). -/
inductive StoreOp where
  | create (sid created_at : String)
  | add (sid role content created_at : String)
  deriving Repr, DecidableEq

/-- Apply one store operation. -/
def ChatStore.applyOp (st : ChatStore) : StoreOp → ChatStore
  | .create sid ts => st.create sid ts
  | .add sid role content ts => st.add_message sid role content ts

/-- Run a sequence of store operations from a starting state. -/
def ChatStore.runOps (st : ChatStore) : List StoreOp → ChatStore
  | [] => st
  | op :: ops => (st.applyOp op).runOps ops

/-- The `(role, content, created_at)` triples of the `add` operations
aimed at session `sid`, in issue order. -/
def addsFor (sid : String) (ops : List StoreOp) : List ChatMessage :=
  ops.filterMap (fun op =>
    match op with
    | .add sid' role content ts => if sid' = sid then some ⟨role, content, ts⟩ else none
    | .create _ _ => none)

/-- Store invariant: every row id is below the AUTOINCREMENT counter and
rows sit in strictly ascending id order. -/
def ChatStore.Inv (st : ChatStore) : Prop :=
  (∀ r ∈ st.rows, r.id < st.next_id) ∧ st.rows.Pairwise (fun a b => a.id < b.id)

theorem inv_applyOp {st : ChatStore} (h : st.Inv) (op : StoreOp) :
    (st.applyOp op).Inv := by
  cases op with
  | create sid ts => exact h
  | add sid role content ts =>
    obtain ⟨hlt, hch⟩ := h
    simp only [ChatStore.applyOp, ChatStore.add_message, ChatStore.Inv]
    constructor
    · intro r hr
      rcases List.mem_append.mp hr with hr | hr
      · exact Nat.lt_succ_of_lt (hlt r hr)
      · simp at hr; subst hr; exact Nat.lt_succ_self _
    · rw [List.pairwise_append]
      refine ⟨hch, by simp, ?_⟩
      intro a ha b hb
      simp at hb
      subst hb
      exact hlt a ha

theorem inv_runOps {st : ChatStore} (h : st.Inv) (ops : List StoreOp) :
    (st.runOps ops).Inv := by
  induction ops generalizing st with
  | nil => exact h
  | cons op ops ih => exact ih (inv_applyOp h op)

theorem inv_init : ChatStore.Inv ChatStore.init := by
  constructor <;> simp [ChatStore.init]

/-- On an invariant-satisfying store the rows are already in ascending id
order, so the `ORDER BY id ASC` sort is the identity on the filter. -/
theorem list_rows_eq_filter {st : ChatStore} (h : st.Inv) (sid : String) :
    st.list_rows sid = st.rows.filter (fun r => r.session_id = sid) := by
  apply List.Sorted.insertionSort_eq
  have hp : (st.rows.filter (fun r => r.session_id = sid)).Pairwise
      (fun a b => a.id < b.id) :=
    h.2.sublist (List.filter_sublist _)
  exact hp.imp (fun hab => Nat.le_of_lt hab)

/-- Running operations appends exactly the session's `add` payloads to the
session's filtered, projected history. -/
theorem rows_runOps_proj (ops : List StoreOp) (st : ChatStore) (sid : String) :
    ((st.runOps ops).rows.filter (fun r => r.session_id = sid)).map
        (fun r => ChatMessage.mk r.role r.content r.created_at)
      = (st.rows.filter (fun r => r.session_id = sid)).map
          (fun r => ChatMessage.mk r.role r.content r.created_at)
        ++ addsFor sid ops := by
  induction ops generalizing st with
  | nil => simp [ChatStore.runOps, addsFor]
  | cons op ops ih =>
    cases op with
    | create sid' ts =>
      simp only [ChatStore.runOps, ChatStore.applyOp, ChatStore.create]
      rw [ih]
      simp [addsFor]
    | add sid' role content ts =>
      simp only [ChatStore.runOps, ChatStore.applyOp, ChatStore.add_message]
      rw [ih]
      by_cases hs : sid' = sid
      · subst hs
        simp [addsFor, List.filter_append]
      · simp [addsFor, List.filter_append, hs]

/-- A list of naturals is a contiguous ascending run: each element is the
predecessor's successor (no gaps, no duplicates). -/
def contiguousAsc : List Nat → Bool
  | [] => true
  | [_] => true
  | a :: b :: rest => (b = a + 1) && contiguousAsc (b :: rest)

/-- A five-operation history interleaving two sessions: create `A` and
`B`, append to `A`, append to `B`, append to `A` again. -/
def cxOps : List StoreOp :=
  [.create "A" "t0", .create "B" "t0", .add "A" "user" "a1" "t1",
   .add "B" "user" "b1" "t2", .add "A" "user" "a2" "t3"]

/-- C2 counterexample: `chat_history.id` — the only sequence-like value
the store assigns — is a single AUTOINCREMENT counter shared by all
sessions.  After interleaved appends (`A`, `B`, `A`), session `A`'s two
messages carry ids `[1, 3]`, which is not a contiguous run, and the first
message of the fresh session `B` carries id `2`, not `1`.  (The records
returned by `list_messages` do not even include this id: they carry only
role, content and created_at.) -/
theorem listMessages_sequence_counterexample :
    ((ChatStore.init.runOps cxOps).list_rows "A").map Row.id = [1, 3] ∧
    contiguousAsc (((ChatStore.init.runOps cxOps).list_rows "A").map Row.id)
      = false ∧
    ((ChatStore.init.runOps cxOps).list_rows "B").map Row.id = [2] := by
  refine ⟨by decide, by decide, by decide⟩

/-- C2 (amended): after any interleaving of store operations,
`list_messages` for a session returns exactly that session's appended
`(role, content, created_at)` payloads in append order, and the underlying
row ids are strictly increasing (no duplicates, ascending) — though not
necessarily contiguous per session, and the ids are not part of the
returned records. -/
theorem listMessages_returns_appends_in_order (ops : List StoreOp) (sid : String) :
    (ChatStore.init.runOps ops).list_messages sid = addsFor sid ops ∧
    (((ChatStore.init.runOps ops).list_rows sid).map Row.id).Pairwise (· < ·) := by
  have hinv : (ChatStore.init.runOps ops).Inv := inv_runOps inv_init ops
  have hrows := list_rows_eq_filter hinv sid
  constructor
  · rw [ChatStore.list_messages, hrows, rows_runOps_proj ops ChatStore.init sid]
    simp [ChatStore.init]
  · rw [hrows, List.pairwise_map]
    exact hinv.2.sublist (List.filter_sublist _)

/-- C3: `add_message` performs no session-existence check and the SQLite
connections never enable foreign-key enforcement, so a message for a
session id absent from the `sessions` table is silently persisted: on the
fresh store, `"ghost"` does not exist, yet after
`add_message "ghost" "user" "x"` the history for `"ghost"` holds the
message. -/
theorem add_message_unknown_session_persists :
    ChatStore.init.get "ghost" = none ∧
    (ChatStore.init.add_message "ghost" "user" "x" "t").list_messages "ghost"
      = [⟨"user", "x", "t"⟩] := by
  exact ⟨rfl, by decide⟩

/-! Run coordinator (`session_runner.py`)

`SessionRunner` keeps `self._tasks : dict[str, asyncio.Task[None]]`.
`start` runs its check-and-register under `self._lock`, so it is one
atomic step.  An `asyncio.Task` is here just its observable status: still
running, or done — and a done task either returned normally or raised
(`_run_session` catches every `Exception`, so the task never ends
cancelled or with an escaping error).  `existing.done()` is true exactly
for the two done states.  The event loop's completion of a background
task is a separate atomic step (`RunnerOp.complete`). -/

/-- Observable state of the `asyncio.Task` driving `_run_session`. -/
inductive RunState where
  | running
  | finished
  | failed
  deriving Repr, DecidableEq

/-- Predicate `Task.done()`: true once the coroutine has returned or raised. -/
def RunState.done : RunState → Bool
  | .running => false
  | .finished => true
  | .failed => true

/-- Look up an association list by key (`dict.get`). -/
def lookupTask : List (String × RunState) → String → Option RunState
  | [], _ => none
  | (k, v) :: rest, sid => if k = sid then some v else lookupTask rest sid

/-- Assignment `dict[key] = value`: replace the key's binding, or insert it. -/
def setTask : List (String × RunState) → String → RunState →
    List (String × RunState)
  | [], sid, v => [(sid, v)]
  | (k, w) :: rest, sid, v =>
    if k = sid then (k, v) :: rest else (k, w) :: setTask rest sid v

/-- The `SessionRunner`'s shared mutable state: its `_tasks` map. -/
structure Runner where
  tasks : List (String × RunState)
  deriving Repr, DecidableEq

/-- A fresh `SessionRunner`: empty `_tasks`. -/
def Runner.init : Runner := ⟨[]⟩

/-- Method `SessionRunner.start`, the lock-guarded critical section: if the map
holds a not-yet-done task for the session, return `False` and change
nothing; otherwise create a new task (state `running`), store it under the
session id and return `True`. -/
def Runner.start (c : Runner) (sid : String) : Bool × Runner :=
  match lookupTask c.tasks sid with
  | some st => if st.done then (true, ⟨setTask c.tasks sid .running⟩) else (false, c)
  | none => (true, ⟨setTask c.tasks sid .running⟩)

/-- The event loop finishing a session's background task: a running task
becomes `finished` if `_run_session` returned normally, `failed` if the
wrapped execution raised (the exception is caught inside `_run_session`).
Anything else is a no-op. -/
def Runner.complete (c : Runner) (sid : String) (ok : Bool) : Runner :=
  match lookupTask c.tasks sid with
  | some .running => ⟨setTask c.tasks sid (if ok then .finished else .failed)⟩
  | _ => c

/-- An atomic step on the coordinator's state. -/
inductive RunnerOp where
  | start (sid : String)
  | complete (sid : String) (ok : Bool)
  deriving Repr, DecidableEq

/-- Apply one coordinator step (a `start` call or a task completion). -/
def Runner.applyOp (c : Runner) : RunnerOp → Runner
  | .start sid => (c.start sid).2
  | .complete sid ok => c.complete sid ok

/-- Run a sequence of coordinator steps. -/
def Runner.runOps (c : Runner) : List RunnerOp → Runner
  | [] => c
  | op :: ops => (c.applyOp op).runOps ops

theorem lookup_setTask_self (l : List (String × RunState)) (sid : String)
    (v : RunState) : lookupTask (setTask l sid v) sid = some v := by
  induction l with
  | nil => simp [setTask, lookupTask]
  | cons p rest ih =>
    obtain ⟨k, w⟩ := p
    by_cases hk : k = sid
    · simp [setTask, lookupTask, hk]
    · simp [setTask, lookupTask, hk, ih]

theorem lookup_setTask_other (l : List (String × RunState)) (sid sid' : String)
    (v : RunState) (h : sid' ≠ sid) :
    lookupTask (setTask l sid v) sid' = lookupTask l sid' := by
  have hns : ¬ sid = sid' := fun hc => h hc.symm
  induction l with
  | nil => simp [setTask, lookupTask, hns]
  | cons p rest ih =>
    obtain ⟨k, w⟩ := p
    by_cases hk : k = sid
    · subst hk
      simp [setTask, lookupTask, hns]
    · simp [setTask, lookupTask, hk, ih]

/-- C1: single-flight per session.  If the map holds a still-running task
for `S`, `start(S, _)` returns `AlreadyRunning` (`false`) and leaves the
state untouched (registers nothing).  And from any state with no active
run for `S`, the first `start` returns `Started` (`true`) and registers a
running task, so the second consecutive `start` returns `AlreadyRunning`
and again changes nothing — exactly one of the two returns `Started`, and
at most one running task per session ever exists (the map holds one task
per id). -/
theorem start_single_flight (c : Runner) (sid : String) :
    (lookupTask c.tasks sid = some RunState.running → c.start sid = (false, c)) ∧
    ((∀ st, lookupTask c.tasks sid = some st → st.done = true) →
      (c.start sid).1 = true ∧
      lookupTask (c.start sid).2.tasks sid = some RunState.running ∧
      (c.start sid).2.start sid = (false, (c.start sid).2)) := by
  constructor
  · intro h
    simp [Runner.start, h, RunState.done]
  · intro h
    cases hl : lookupTask c.tasks sid with
    | none => simp [Runner.start, hl, lookup_setTask_self, RunState.done]
    | some st =>
      have hd := h st hl
      cases st with
      | running => simp [RunState.done] at hd
      | finished => simp [Runner.start, hl, lookup_setTask_self, RunState.done]
      | failed => simp [Runner.start, hl, lookup_setTask_self, RunState.done]

/-- Witness for C1: with a running task for `"s"` a `start` is rejected
unchanged, and on the fresh runner the first `start` succeeds while the
immediately following one is rejected. -/
theorem start_single_flight_witness :
    Runner.start ⟨[("s", RunState.running)]⟩ "s"
      = (false, (⟨[("s", RunState.running)]⟩ : Runner)) ∧
    ((Runner.init.start "s").1 = true ∧
      lookupTask (Runner.init.start "s").2.tasks "s" = some RunState.running ∧
      (Runner.init.start "s").2.start "s" = (false, (Runner.init.start "s").2)) :=
  ⟨(start_single_flight ⟨[("s", RunState.running)]⟩ "s").1 (by decide),
   (start_single_flight Runner.init "s").2
     (fun st hst => by simp [Runner.init, lookupTask] at hst)⟩

/-- C4: once a session's run completes — `ok = true` for a normal return
of the wrapped execution, `ok = false` for a caught exception — the task
is done, so a subsequent `start` for the same session returns `Started`
(`true`) and registers a fresh running task: `finished` and `failed`
states are both eligible for replacement. -/
theorem start_after_complete (c : Runner) (sid : String) (ok : Bool)
    (h : lookupTask c.tasks sid = some RunState.running) :
    lookupTask (c.complete sid ok).tasks sid
      = some (if ok then RunState.finished else RunState.failed) ∧
    ((c.complete sid ok).start sid).1 = true ∧
    lookupTask ((c.complete sid ok).start sid).2.tasks sid
      = some RunState.running := by
  cases ok <;>
    simp [Runner.complete, h, Runner.start, lookup_setTask_self, RunState.done]

/-- Witness for C4: completing the running task for `"s"` (normal return)
lets the next `start` succeed. -/
theorem start_after_complete_witness :
    lookupTask (Runner.complete ⟨[("s", RunState.running)]⟩ "s" true).tasks "s"
      = some (if true then RunState.finished else RunState.failed) ∧
    ((Runner.complete ⟨[("s", RunState.running)]⟩ "s" true).start "s").1 = true ∧
    lookupTask ((Runner.complete ⟨[("s", RunState.running)]⟩ "s" true).start
        "s").2.tasks "s" = some RunState.running :=
  start_after_complete ⟨[("s", RunState.running)]⟩ "s" true (by decide)

theorem lookup_applyOp_isSome_iff (c : Runner) (op : RunnerOp) (sid : String) :
    (lookupTask (c.applyOp op).tasks sid).isSome = true ↔
      (op = .start sid ∨ (lookupTask c.tasks sid).isSome = true) := by
  cases op with
  | start sid' =>
    by_cases hs : sid' = sid
    · subst hs
      simp only [Runner.applyOp, RunnerOp.start.injEq, true_or, iff_true]
      cases hl : lookupTask c.tasks sid' with
      | none => simp [Runner.start, hl, lookup_setTask_self]
      | some st =>
        cases hst : st.done <;>
          simp [Runner.start, hl, hst, lookup_setTask_self]
    · have hs' : sid ≠ sid' := fun hc => hs hc.symm
      simp only [Runner.applyOp, RunnerOp.start.injEq, hs, false_or]
      cases hl : lookupTask c.tasks sid' with
      | none => simp [Runner.start, hl, lookup_setTask_other _ _ _ _ hs']
      | some st =>
        cases hst : st.done <;>
          simp [Runner.start, hl, hst, lookup_setTask_other _ _ _ _ hs']
  | complete sid' ok =>
    simp only [Runner.applyOp, reduceCtorEq, false_or]
    cases hl : lookupTask c.tasks sid' with
    | none => simp [Runner.complete, hl]
    | some st =>
      cases st with
      | running =>
        by_cases hs : sid' = sid
        · subst hs
          simp [Runner.complete, hl, lookup_setTask_self]
        · have hs' : sid ≠ sid' := fun hc => hs hc.symm
          simp [Runner.complete, hl, lookup_setTask_other _ _ _ _ hs']
      | finished => simp [Runner.complete, hl]
      | failed => simp [Runner.complete, hl]

theorem lookup_runOps_isSome_iff (c : Runner) (ops : List RunnerOp) (sid : String) :
    (lookupTask (c.runOps ops).tasks sid).isSome = true ↔
      (RunnerOp.start sid ∈ ops ∨ (lookupTask c.tasks sid).isSome = true) := by
  induction ops generalizing c with
  | nil => simp [Runner.runOps]
  | cons op ops ih =>
    rw [Runner.runOps, ih, lookup_applyOp_isSome_iff]
    constructor
    · rintro (h | h | h)
      · exact Or.inl (List.mem_cons_of_mem _ h)
      · subst h; exact Or.inl (List.mem_cons_self _ _)
      · exact Or.inr h
    · rintro (h | h)
      · rcases List.mem_cons.mp h with h | h
        · exact Or.inr (Or.inl h.symm)
        · exact Or.inl h
      · exact Or.inr (Or.inr h)

/-- C10: no coordinator operation — a `start` call or a task completion —
ever removes a key from `_tasks`: an entry present before any sequence of
operations is still present after it; and from a fresh runner, `_tasks`
holds an entry for a session exactly when some `start` for that session
has occurred, so its key set grows monotonically with the set of sessions
that ever started a run. -/
theorem tasks_entries_never_removed :
    (∀ (c : Runner) (ops : List RunnerOp) (sid : String),
        (lookupTask c.tasks sid).isSome = true →
        (lookupTask (c.runOps ops).tasks sid).isSome = true) ∧
    (∀ (ops : List RunnerOp) (sid : String),
        (lookupTask (Runner.init.runOps ops).tasks sid).isSome = true ↔
          RunnerOp.start sid ∈ ops) := by
  constructor
  · intro c ops sid h
    exact (lookup_runOps_isSome_iff c ops sid).mpr (Or.inr h)
  · intro ops sid
    rw [lookup_runOps_isSome_iff]
    simp [Runner.init, lookupTask]

/-- Witness for C10: an entry for `"s"` survives a completion step, and
on the fresh runner a lone `start "s"` op makes the entry appear. -/
theorem tasks_entries_never_removed_witness :
    (lookupTask (Runner.runOps ⟨[("s", RunState.running)]⟩
        [RunnerOp.complete "s" true]).tasks "s").isSome = true ∧
    ((lookupTask (Runner.init.runOps [RunnerOp.start "s"]).tasks "s").isSome
        = true ↔ RunnerOp.start "s" ∈ [RunnerOp.start "s"]) :=
  ⟨tasks_entries_never_removed.1 ⟨[("s", RunState.running)]⟩
      [RunnerOp.complete "s" true] "s" (by decide),
   tasks_entries_never_removed.2 [RunnerOp.start "s"] "s"⟩

/-! The function `_run_session` and its callback sinks

`_run_session` builds the Claude message history, hands three callbacks to
`sampling_loop` and wraps the whole call in `try/except Exception`.  The
external `sampling_loop` is opaque: its observable behaviour is the
sequence of callback invocations it makes plus its outcome (return or
raise).  Both are inputs of the embedding.  Each `publish_event(payload)`
call is recorded as one structured payload in emission order (the code
JSON-serializes the dict and schedules `event_broker.publish`; the dict's
structure is kept here). -/

/-- Modelled from the spec: `ToolResult` comes from the `tools` package,
which is not under `src/`; per the spec a tool completion carries optional
output text and optional error text, exactly the two fields
`tool_output_callback` reads. -/
structure ToolResult where
  output : Option String
  error : Option String
  deriving Repr, DecidableEq

/-- Python `a or b` on an optional string against a fallback: `None` and
`""` are falsy, anything else is returned as-is. -/
def pyOrStr (a : Option String) (b : String) : String :=
  match a with
  | none => b
  | some s => if s = "" then b else s

/-- A content block handed to `output_callback`: a dict of type `"text"`
(whose `get("text", "")` yields `s`), or anything else (a non-dict or a
non-text block, kept abstract as `raw`). -/
inductive ContentBlock where
  | text (s : String)
  | other (raw : String)
  deriving Repr, DecidableEq

/-- One structured payload handed to `publish_event` by a callback. -/
inductive Payload where
  | assistantText (text : String)
  | assistantBlock (block : ContentBlock)
  | toolResult (toolUseId : String) (output : Option String)
      (error : Option String)
  | apiResponseOk
  | apiError (error : String)
  | runError (error : String)
  deriving Repr, DecidableEq

/-- One callback invocation made by the opaque `sampling_loop`, with the
wall-clock timestamp the store would record for any message it appends. -/
inductive ExecEvent where
  | output (block : ContentBlock) (ts : String)
  | toolOutput (result : ToolResult) (toolUseId : String) (ts : String)
  | apiResponse (error : Option String)
  deriving Repr, DecidableEq

/-- How `sampling_loop` ended: returned normally, or raised an exception
whose `str` is `msg`. -/
inductive ExecOutcome where
  | ok
  | raised (msg : String)
  deriving Repr, DecidableEq

/-- Callback `output_callback`: a text block's text is persisted as an `assistant`
message when non-empty, and an `assistant_text` payload is always
published; any other block is only published as `assistant_block`. -/
def output_callback (sid : String) (block : ContentBlock) (ts : String)
    (st : ChatStore × List Payload) : ChatStore × List Payload :=
  match block with
  | .text s =>
    (if s ≠ "" then st.1.add_message sid "assistant" s ts else st.1,
     st.2 ++ [.assistantText s])
  | .other raw => (st.1, st.2 ++ [.assistantBlock (.other raw)])

/-- Callback `tool_output_callback`: `text = result.output or result.error or ""`;
the text is persisted as a `tool` message when non-empty, and a
`tool_result` payload with the tool-use id and both raw fields is always
published. -/
def tool_output_callback (sid : String) (result : ToolResult)
    (toolUseId ts : String) (st : ChatStore × List Payload) :
    ChatStore × List Payload :=
  let text := pyOrStr result.output (pyOrStr result.error "")
  (if text ≠ "" then st.1.add_message sid "tool" text ts else st.1,
   st.2 ++ [.toolResult toolUseId result.output result.error])

/-- Callback `api_response_callback`: publishes `api_error` on a failed call,
`api_response`/ok otherwise; persists nothing. -/
def api_response_callback (err : Option String)
    (st : ChatStore × List Payload) : ChatStore × List Payload :=
  match err with
  | some e => (st.1, st.2 ++ [.apiError e])
  | none => (st.1, st.2 ++ [.apiResponseOk])

/-- Dispatch one callback invocation. -/
def applyEvent (sid : String) (st : ChatStore × List Payload) :
    ExecEvent → ChatStore × List Payload
  | .output block ts => output_callback sid block ts st
  | .toolOutput result toolUseId ts => tool_output_callback sid result toolUseId ts st
  | .apiResponse err => api_response_callback err st

/-- Method `SessionRunner._run_session` given the opaque execution's behaviour:
run every callback in order over the store, then — per the
`try/except Exception` wrapper — publish a `run_error` payload carrying
`str(exc)` if the execution raised.  The function is total: the exception
is consumed at this boundary. -/
def run_session (sid : String) (events : List ExecEvent)
    (outcome : ExecOutcome) (store : ChatStore) : ChatStore × List Payload :=
  let res := events.foldl (applyEvent sid) (store, [])
  match outcome with
  | .ok => res
  | .raised msg => (res.1, res.2 ++ [.runError msg])

/-- The single payload a callback invocation publishes (none of the three
callbacks makes its payload depend on the store). -/
def payloadOf : ExecEvent → Payload
  | .output (.text s) _ => .assistantText s
  | .output (.other raw) _ => .assistantBlock (.other raw)
  | .toolOutput r toolUseId _ => .toolResult toolUseId r.output r.error
  | .apiResponse (some e) => .apiError e
  | .apiResponse none => .apiResponseOk

theorem foldl_applyEvent_snd (sid : String) (events : List ExecEvent)
    (st : ChatStore) (acc : List Payload) :
    (events.foldl (applyEvent sid) (st, acc)).2 = acc ++ events.map payloadOf := by
  induction events generalizing st acc with
  | nil => simp
  | cons e events ih =>
    rw [List.foldl_cons]
    cases e with
    | output block ts =>
      cases block with
      | text s =>
        rw [show applyEvent sid (st, acc) (.output (.text s) ts)
            = (((applyEvent sid (st, acc) (.output (.text s) ts))).1,
               acc ++ [Payload.assistantText s]) from rfl]
        rw [ih]
        simp [payloadOf]
      | other raw =>
        rw [show applyEvent sid (st, acc) (.output (.other raw) ts)
            = (st, acc ++ [Payload.assistantBlock (.other raw)]) from rfl]
        rw [ih]
        simp [payloadOf]
    | toolOutput result toolUseId ts =>
      rw [show applyEvent sid (st, acc) (.toolOutput result toolUseId ts)
          = (((applyEvent sid (st, acc) (.toolOutput result toolUseId ts))).1,
             acc ++ [Payload.toolResult toolUseId result.output result.error])
          from rfl]
      rw [ih]
      simp [payloadOf]
    | apiResponse err =>
      cases err with
      | none =>
        rw [show applyEvent sid (st, acc) (.apiResponse none)
            = (st, acc ++ [Payload.apiResponseOk]) from rfl]
        rw [ih]
        simp [payloadOf]
      | some e =>
        rw [show applyEvent sid (st, acc) (.apiResponse (some e))
            = (st, acc ++ [Payload.apiError e]) from rfl]
        rw [ih]
        simp [payloadOf]

theorem payloadOf_ne_runError (e : ExecEvent) (m : String) :
    payloadOf e ≠ Payload.runError m := by
  cases e with
  | output block ts => cases block <;> simp [payloadOf]
  | toolOutput r toolUseId ts => simp [payloadOf]
  | apiResponse err => cases err <;> simp [payloadOf]

/-- C5: for every exception the execution raises, `_run_session` ends in
exactly the state of the normal path plus one trailing `run_error`
payload carrying the failure's description; `run_session` is a total
function, so the exception never escapes the background task, and the
normal path never publishes a `run_error` — the failure is observable
only through that notification. -/
theorem run_error_caught_and_published (sid : String) (events : List ExecEvent)
    (msg : String) (store : ChatStore) :
    (run_session sid events (.raised msg) store).2
      = (run_session sid events .ok store).2 ++ [Payload.runError msg] ∧
    (run_session sid events (.raised msg) store).1
      = (run_session sid events .ok store).1 ∧
    ∀ m, Payload.runError m ∉ (run_session sid events .ok store).2 := by
  refine ⟨rfl, rfl, ?_⟩
  intro m hm
  rw [show (run_session sid events .ok store).2
      = (events.foldl (applyEvent sid) (store, [])).2 from rfl,
    foldl_applyEvent_snd] at hm
  simp at hm
  obtain ⟨e, _, he⟩ := hm
  exact payloadOf_ne_runError e m he

/-- Witness for C5: an execution that raises `"boom"` after no callback
ends with exactly the `run_error "boom"` payload published. -/
theorem run_error_caught_and_published_witness :
    (run_session "s" [] (.raised "boom") ChatStore.init).2
      = (run_session "s" [] .ok ChatStore.init).2 ++ [Payload.runError "boom"] :=
  (run_error_caught_and_published "s" [] "boom" ChatStore.init).1

/-- C7 counterexample: a tool completion with neither output nor error
text (`output = None`, `error = None`) appends no `tool` ChatMessage at
all — the store is left with its zero rows, where the claim requires a
message with empty-string content — while the `tool_result` payload is
still published. -/
theorem tool_result_empty_counterexample :
    (tool_output_callback "s" ⟨none, none⟩ "t1" "ts" (ChatStore.init, [])).1.rows
      = [] ∧
    (tool_output_callback "s" ⟨none, none⟩ "t1" "ts" (ChatStore.init, [])).2
      = [Payload.toolResult "t1" none none] :=
  ⟨rfl, rfl⟩

/-- C7 (amended): on every tool completion the sink always publishes one
`tool_result` payload carrying the tool-use id and the raw output and
error fields; and it appends a `tool` ChatMessage whose content is the
output text, else the error text (Python truthiness: `None` and `""` both
fall through), but only when that derived text is non-empty — when both
fields are empty or absent, nothing is appended. -/
theorem tool_result_sink (sid : String) (result : ToolResult)
    (toolUseId ts : String) (store : ChatStore) (acc : List Payload) :
    (tool_output_callback sid result toolUseId ts (store, acc)).2
      = acc ++ [Payload.toolResult toolUseId result.output result.error] ∧
    ((pyOrStr result.output (pyOrStr result.error "") = "" ∧
        (tool_output_callback sid result toolUseId ts (store, acc)).1 = store) ∨
      (pyOrStr result.output (pyOrStr result.error "") ≠ "" ∧
        (tool_output_callback sid result toolUseId ts (store, acc)).1.rows
          = store.rows ++ [⟨store.next_id, sid, "tool",
              pyOrStr result.output (pyOrStr result.error ""), ts⟩])) := by
  refine ⟨rfl, ?_⟩
  by_cases h : pyOrStr result.output (pyOrStr result.error "") = ""
  · exact Or.inl ⟨h, by simp [tool_output_callback, h]⟩
  · exact Or.inr ⟨h, by simp [tool_output_callback, h, ChatStore.add_message]⟩

/-- Witness for C7: a completion with output `"out"` publishes the
`tool_result` payload carrying id, output, and error. -/
theorem tool_result_sink_witness :
    (tool_output_callback "s" ⟨some "out", none⟩ "t2" "ts"
        (ChatStore.init, [])).2
      = [] ++ [Payload.toolResult "t2" (some "out") none] :=
  (tool_result_sink "s" ⟨some "out", none⟩ "t2" "ts" ChatStore.init []).1

/-- The Claude-message built from one stored record:
`{"role": role, "content": [{"type": "text", "text": content}]}` — the
content is always the single text block holding the stored content. -/
structure BetaMessageParam where
  role : String
  text : String
  deriving Repr, DecidableEq

/-- The loop body of `_build_messages`: walk the history in order,
skipping (`continue`) every record whose role is neither `"user"` nor
`"assistant"`, and convert the rest. -/
def buildFrom : List ChatMessage → List BetaMessageParam
  | [] => []
  | item :: rest =>
    if item.role = "user" ∨ item.role = "assistant" then
      ⟨item.role, item.content⟩ :: buildFrom rest
    else buildFrom rest

/-- Method `SessionRunner._build_messages`: load the session's history from the
store and convert it. -/
def _build_messages (store : ChatStore) (sid : String) : List BetaMessageParam :=
  buildFrom (store.list_messages sid)

theorem buildFrom_eq_filterMap (history : List ChatMessage) :
    buildFrom history
      = (history.filter
          (fun m => decide (m.role = "user" ∨ m.role = "assistant"))).map
          (fun m => ⟨m.role, m.content⟩) := by
  induction history with
  | nil => rfl
  | cons item rest ih =>
    by_cases h : item.role = "user" ∨ item.role = "assistant"
    · rw [buildFrom, if_pos h, List.filter_cons, if_pos (by simpa using h),
        List.map_cons, ih]
    · rw [buildFrom, if_neg h, List.filter_cons, if_neg (by simpa using h), ih]

/-- C8: the message list handed to the external execution is exactly the
session's stored history, in ascending stored order, restricted to the
records whose role is `"user"` or `"assistant"` and converted to Claude
message parameters — every record with any other role (in particular
`"tool"`) is dropped. -/
theorem build_messages_filters_roles (store : ChatStore) (sid : String) :
    _build_messages store sid
      = ((store.list_messages sid).filter
          (fun m => decide (m.role = "user" ∨ m.role = "assistant"))).map
          (fun m => ⟨m.role, m.content⟩) :=
  buildFrom_eq_filterMap (store.list_messages sid)

/-! Event broker (`event_broker.py`)

`EventBroker` holds `_subscribers : dict[str, set[asyncio.Queue[str]]]`
(a `defaultdict(set)`) under a lock.  A queue object is identified here by
a fresh numeric id (standing for the Python object identity) together with
its buffered messages.  `subscribe` is split into its two lock-guarded
parts: registration (create a fresh queue and add it to the session's set,
creating the set if absent) and — in the generator's `finally` block, on
cancellation — deregistration (`discard` the queue, and `pop` the
session's entry when the set becomes empty).  `publish` appends the
message to every queue currently in the session's set (`put_nowait`) and
touches no other session; with no entry for the session it is a no-op
(`dict.get`, no default insertion).  The subscriber's generator drains its
own queue in FIFO order, so the queue's buffered list is exactly the
sequence of payloads the subscription receives. -/

/-- One `asyncio.Queue[str]`: its identity and buffered messages (FIFO). -/
structure Queue where
  id : Nat
  msgs : List String
  deriving Repr, DecidableEq

/-- Statement `self._subscribers[session_id].add(queue)` on the `defaultdict`:
append to the session's set, creating the entry if absent. -/
def addQueue : List (String × List Queue) → String → Queue →
    List (String × List Queue)
  | [], sid, q => [(sid, [q])]
  | (k, qs) :: rest, sid, q =>
    if k = sid then (k, qs ++ [q]) :: rest else (k, qs) :: addQueue rest sid q

/-- Method `publish`: `put_nowait(message)` on every queue of the session's set
(taken as a stable snapshot under the lock); no entry, no effect. -/
def publishTo : List (String × List Queue) → String → String →
    List (String × List Queue)
  | [], _, _ => []
  | (k, qs) :: rest, sid, msg =>
    if k = sid then
      (k, qs.map (fun q => ⟨q.id, q.msgs ++ [msg]⟩)) :: rest
    else (k, qs) :: publishTo rest sid msg

/-- The `finally` block of `subscribe` on cancellation:
`discard(queue)` from the session's set, then `pop` the entry if the set
became empty. -/
def cancelIn : List (String × List Queue) → String → Nat →
    List (String × List Queue)
  | [], _, _ => []
  | (k, qs) :: rest, sid, qid =>
    if k = sid then
      let qs' := qs.filter (fun q => q.id != qid)
      if qs'.isEmpty then rest else (k, qs') :: rest
    else (k, qs) :: cancelIn rest sid qid

/-- The broker's state: the subscriber map plus the id supply for fresh
queue objects. -/
structure EventBroker where
  subscribers : List (String × List Queue)
  next_qid : Nat
  deriving Repr, DecidableEq

/-- A fresh `EventBroker`: no subscribers. -/
def EventBroker.init : EventBroker := ⟨[], 0⟩

/-- The registration step of `subscribe`: a fresh empty queue joins the
session's set; returns the queue's identity to the new subscriber. -/
def EventBroker.subscribe (b : EventBroker) (sid : String) : EventBroker × Nat :=
  (⟨addQueue b.subscribers sid ⟨b.next_qid, []⟩, b.next_qid + 1⟩, b.next_qid)

/-- Method `EventBroker.publish`. -/
def EventBroker.publish (b : EventBroker) (sid msg : String) : EventBroker :=
  ⟨publishTo b.subscribers sid msg, b.next_qid⟩

/-- Cancellation of a subscription (the generator's `finally` block). -/
def EventBroker.cancel (b : EventBroker) (sid : String) (qid : Nat) : EventBroker :=
  ⟨cancelIn b.subscribers sid qid, b.next_qid⟩

/-- Look up a session's subscriber set. -/
def lookupQueues : List (String × List Queue) → String → Option (List Queue)
  | [], _ => none
  | (k, qs) :: rest, sid => if k = sid then some qs else lookupQueues rest sid

/-- The buffered messages of queue `qid` in session `sid`'s set, if that
queue is registered. -/
def queueMsgs (b : EventBroker) (sid : String) (qid : Nat) : Option (List String) :=
  (lookupQueues b.subscribers sid).bind
    (fun qs => (qs.find? (fun q => q.id == qid)).map Queue.msgs)

/-- An atomic broker step: a subscription registering, a publish, or a
subscription cancelling. -/
inductive BrokerOp where
  | subscribe (sid : String)
  | publish (sid : String) (msg : String)
  | cancel (sid : String) (qid : Nat)
  deriving Repr, DecidableEq

/-- Apply one broker step. -/
def EventBroker.applyBOp (b : EventBroker) : BrokerOp → EventBroker
  | .subscribe sid => (b.subscribe sid).1
  | .publish sid msg => b.publish sid msg
  | .cancel sid qid => b.cancel sid qid

/-- Run a sequence of broker steps. -/
def EventBroker.runBOps (b : EventBroker) : List BrokerOp → EventBroker
  | [] => b
  | op :: ops => (b.applyBOp op).runBOps ops

/-- The message an op publishes to session `sid`, if any. -/
def pubOf (sid : String) : BrokerOp → Option String
  | .publish sid' msg => if sid' = sid then some msg else none
  | _ => none

/-- All messages a sequence of ops publishes to session `sid`, in order. -/
def publishedTo (sid : String) (ops : List BrokerOp) : List String :=
  ops.filterMap (pubOf sid)

theorem lookupQueues_addQueue_other {l : List (String × List Queue)}
    {sid sid' : String} (q : Queue) (h : sid ≠ sid') :
    lookupQueues (addQueue l sid' q) sid = lookupQueues l sid := by
  have hns : ¬ sid' = sid := fun hc => h hc.symm
  induction l with
  | nil => simp [addQueue, lookupQueues, hns]
  | cons p rest ih =>
    obtain ⟨k, qs⟩ := p
    by_cases hk : k = sid'
    · subst hk
      simp [addQueue, lookupQueues, hns]
    · simp [addQueue, lookupQueues, hk, ih]

theorem lookupQueues_publishTo_other {l : List (String × List Queue)}
    {sid sid' : String} (msg : String) (h : sid ≠ sid') :
    lookupQueues (publishTo l sid' msg) sid = lookupQueues l sid := by
  have hns : ¬ sid' = sid := fun hc => h hc.symm
  induction l with
  | nil => simp [publishTo, lookupQueues]
  | cons p rest ih =>
    obtain ⟨k, qs⟩ := p
    by_cases hk : k = sid'
    · subst hk
      simp [publishTo, lookupQueues, hns]
    · simp [publishTo, lookupQueues, hk, ih]

theorem lookupQueues_cancelIn_other {l : List (String × List Queue)}
    {sid sid' : String} (qid : Nat) (h : sid ≠ sid') :
    lookupQueues (cancelIn l sid' qid) sid = lookupQueues l sid := by
  have hns : ¬ sid' = sid := fun hc => h hc.symm
  induction l with
  | nil => simp [cancelIn, lookupQueues]
  | cons p rest ih =>
    obtain ⟨k, qs⟩ := p
    by_cases hk : k = sid'
    · subst hk
      by_cases he : (qs.filter (fun q => q.id != qid)).isEmpty
      · simp [cancelIn, lookupQueues, hns, he]
      · simp [cancelIn, lookupQueues, hns, he]
    · simp [cancelIn, lookupQueues, hk, ih]

theorem lookupQueues_addQueue_self_none {l : List (String × List Queue)}
    {sid : String} (q : Queue) (h : lookupQueues l sid = none) :
    lookupQueues (addQueue l sid q) sid = some [q] := by
  induction l with
  | nil => simp [addQueue, lookupQueues]
  | cons p rest ih =>
    obtain ⟨k, qs⟩ := p
    by_cases hk : k = sid
    · simp [lookupQueues, hk] at h
    · simp [lookupQueues, hk] at h
      simp [addQueue, lookupQueues, hk, ih h]

theorem lookupQueues_addQueue_self_some {l : List (String × List Queue)}
    {sid : String} {qs0 : List Queue} (q : Queue)
    (h : lookupQueues l sid = some qs0) :
    lookupQueues (addQueue l sid q) sid = some (qs0 ++ [q]) := by
  induction l with
  | nil => simp [lookupQueues] at h
  | cons p rest ih =>
    obtain ⟨k, qs⟩ := p
    by_cases hk : k = sid
    · subst hk
      simp [lookupQueues] at h
      subst h
      simp [addQueue, lookupQueues]
    · simp [lookupQueues, hk] at h
      simp [addQueue, lookupQueues, hk, ih h]

theorem lookupQueues_publishTo_self {l : List (String × List Queue)}
    {sid : String} {qs0 : List Queue} (msg : String)
    (h : lookupQueues l sid = some qs0) :
    lookupQueues (publishTo l sid msg) sid
      = some (qs0.map (fun q => ⟨q.id, q.msgs ++ [msg]⟩)) := by
  induction l with
  | nil => simp [lookupQueues] at h
  | cons p rest ih =>
    obtain ⟨k, qs⟩ := p
    by_cases hk : k = sid
    · subst hk
      simp [lookupQueues] at h
      subst h
      simp [publishTo, lookupQueues]
    · simp [lookupQueues, hk] at h
      simp [publishTo, lookupQueues, hk, ih h]

theorem lookupQueues_cancelIn_self_nonempty {l : List (String × List Queue)}
    {sid : String} {qs0 : List Queue} (qid : Nat)
    (h : lookupQueues l sid = some qs0)
    (hne : (qs0.filter (fun q => q.id != qid)).isEmpty = false) :
    lookupQueues (cancelIn l sid qid) sid
      = some (qs0.filter (fun q => q.id != qid)) := by
  induction l with
  | nil => simp [lookupQueues] at h
  | cons p rest ih =>
    obtain ⟨k, qs⟩ := p
    by_cases hk : k = sid
    · subst hk
      simp [lookupQueues] at h
      subst h
      simp [cancelIn, lookupQueues, hne]
    · simp [lookupQueues, hk] at h
      simp [cancelIn, lookupQueues, hk, ih h]

theorem find?_filter_of_imp {l : List Queue} {p f : Queue → Bool}
    (h : ∀ a, p a = true → f a = true) :
    (l.filter f).find? p = l.find? p := by
  induction l with
  | nil => rfl
  | cons a l ih =>
    cases hp : p a with
    | true =>
      have hfa := h a hp
      simp [List.filter_cons, hfa, List.find?_cons, hp]
    | false =>
      cases hf : f a with
      | true => simp [List.filter_cons, hf, List.find?_cons, hp, ih]
      | false => simp [List.filter_cons, hf, List.find?_cons, hp, ih]

/-- Broker invariant: every registered queue's id is below the fresh-id
supply (Python: a newly created queue object is distinct from every
registered one). -/
def EventBroker.IdBound (b : EventBroker) : Prop :=
  ∀ p ∈ b.subscribers, ∀ q ∈ p.2, q.id < b.next_qid

theorem mem_addQueue {l : List (String × List Queue)} {sid : String}
    {qnew : Queue} {p : String × List Queue} {q : Queue}
    (hp : p ∈ addQueue l sid qnew) (hq : q ∈ p.2) :
    (∃ p0 ∈ l, q ∈ p0.2) ∨ q = qnew := by
  induction l with
  | nil =>
    simp [addQueue] at hp
    subst hp
    simp at hq
    exact Or.inr hq
  | cons hd rest ih =>
    obtain ⟨k, qs⟩ := hd
    by_cases hk : k = sid
    · subst hk
      simp [addQueue] at hp
      rcases hp with hp | hp
      · subst hp
        simp at hq
        rcases hq with hq | hq
        · exact Or.inl ⟨(k, qs), by simp, hq⟩
        · exact Or.inr hq
      · exact Or.inl ⟨p, by simp [hp], hq⟩
    · simp [addQueue, hk] at hp
      rcases hp with hp | hp
      · subst hp
        exact Or.inl ⟨(k, qs), by simp, hq⟩
      · rcases ih hp with ⟨p0, hp0, hq0⟩ | h
        · exact Or.inl ⟨p0, by simp [hp0], hq0⟩
        · exact Or.inr h

theorem mem_publishTo {l : List (String × List Queue)} {sid msg : String}
    {p : String × List Queue} {q : Queue}
    (hp : p ∈ publishTo l sid msg) (hq : q ∈ p.2) :
    ∃ p0 ∈ l, ∃ q0 ∈ p0.2, q.id = q0.id := by
  induction l with
  | nil => simp [publishTo] at hp
  | cons hd rest ih =>
    obtain ⟨k, qs⟩ := hd
    by_cases hk : k = sid
    · subst hk
      simp [publishTo] at hp
      rcases hp with hp | hp
      · subst hp
        simp at hq
        obtain ⟨q0, hq0, hqe⟩ := hq
        exact ⟨(k, qs), by simp, q0, hq0, by rw [← hqe]⟩
      · exact ⟨p, by simp [hp], q, hq, rfl⟩
    · simp [publishTo, hk] at hp
      rcases hp with hp | hp
      · subst hp
        exact ⟨(k, qs), by simp, q, hq, rfl⟩
      · obtain ⟨p0, hp0, q0, hq0, hqe⟩ := ih hp
        exact ⟨p0, by simp [hp0], q0, hq0, hqe⟩

theorem mem_cancelIn {l : List (String × List Queue)} {sid : String}
    {qid : Nat} {p : String × List Queue} {q : Queue}
    (hp : p ∈ cancelIn l sid qid) (hq : q ∈ p.2) :
    ∃ p0 ∈ l, q ∈ p0.2 := by
  induction l with
  | nil => simp [cancelIn] at hp
  | cons hd rest ih =>
    obtain ⟨k, qs⟩ := hd
    by_cases hk : k = sid
    · subst hk
      by_cases he : (qs.filter (fun x => x.id != qid)).isEmpty
      · simp [cancelIn, he] at hp
        exact ⟨p, by simp [hp], hq⟩
      · simp [cancelIn, he] at hp
        rcases hp with hp | hp
        · subst hp
          simp at hq
          exact ⟨(k, qs), by simp, hq.1⟩
        · exact ⟨p, by simp [hp], hq⟩
    · simp [cancelIn, hk] at hp
      rcases hp with hp | hp
      · subst hp
        exact ⟨(k, qs), by simp, hq⟩
      · obtain ⟨p0, hp0, hq0⟩ := ih hp
        exact ⟨p0, by simp [hp0], hq0⟩

theorem idBound_applyBOp {b : EventBroker} (h : b.IdBound) (op : BrokerOp) :
    (b.applyBOp op).IdBound := by
  cases op with
  | subscribe sid =>
    intro p hp q hq
    rcases mem_addQueue hp hq with ⟨p0, hp0, hq0⟩ | he
    · exact Nat.lt_succ_of_lt (h p0 hp0 q hq0)
    · subst he
      exact Nat.lt_succ_self _
  | publish sid msg =>
    intro p hp q hq
    obtain ⟨p0, hp0, q0, hq0, hqe⟩ := mem_publishTo hp hq
    rw [show (b.applyBOp (.publish sid msg)).next_qid = b.next_qid from rfl, hqe]
    exact h p0 hp0 q0 hq0
  | cancel sid qid =>
    intro p hp q hq
    obtain ⟨p0, hp0, hq0⟩ := mem_cancelIn hp hq
    exact h p0 hp0 q hq0

theorem idBound_runBOps {b : EventBroker} (h : b.IdBound) (ops : List BrokerOp) :
    (b.runBOps ops).IdBound := by
  induction ops generalizing b with
  | nil => exact h
  | cons op ops ih => exact ih (idBound_applyBOp h op)

theorem idBound_init : EventBroker.IdBound EventBroker.init := by
  intro p hp
  simp [EventBroker.init] at hp

/-- A registered queue's buffered messages across one broker step: any op
other than cancelling this very queue keeps it registered and appends to
it exactly the message (if any) the op publishes to its session. -/
theorem queueMsgs_applyBOp {b : EventBroker} {sid : String} {qid : Nat}
    {m : List String} (op : BrokerOp)
    (hq : queueMsgs b sid qid = some m)
    (hnc : op ≠ .cancel sid qid) :
    queueMsgs (b.applyBOp op) sid qid = some (m ++ (pubOf sid op).toList) := by
  rw [queueMsgs] at hq
  cases hl : lookupQueues b.subscribers sid with
  | none => rw [hl] at hq; simp at hq
  | some qs =>
    rw [hl, Option.some_bind] at hq
    obtain ⟨q0, hfind, hmsgs⟩ :
        ∃ q0, qs.find? (fun q => q.id == qid) = some q0 ∧ q0.msgs = m := by
      cases hf : qs.find? (fun q => q.id == qid) with
      | none => rw [hf] at hq; simp at hq
      | some q0 => rw [hf] at hq; simp at hq; exact ⟨q0, rfl, hq⟩
    cases op with
    | subscribe sid' =>
      by_cases hs : sid' = sid
      · subst hs
        rw [queueMsgs,
          show (b.applyBOp (.subscribe sid')).subscribers
              = addQueue b.subscribers sid' ⟨b.next_qid, []⟩ from rfl,
          lookupQueues_addQueue_self_some _ hl, Option.some_bind,
          List.find?_append, hfind]
        simp [pubOf, hmsgs, Option.or_some]
      · have hss : sid ≠ sid' := fun hc => hs hc.symm
        rw [queueMsgs,
          show (b.applyBOp (.subscribe sid')).subscribers
              = addQueue b.subscribers sid' ⟨b.next_qid, []⟩ from rfl,
          lookupQueues_addQueue_other _ hss, hl, Option.some_bind, hfind]
        simp [pubOf, hmsgs]
    | publish sid' msg =>
      by_cases hs : sid' = sid
      · subst hs
        rw [queueMsgs,
          show (b.applyBOp (.publish sid' msg)).subscribers
              = publishTo b.subscribers sid' msg from rfl,
          lookupQueues_publishTo_self msg hl, Option.some_bind,
          List.find?_map,
          show ((fun q : Queue => q.id == qid) ∘
              fun q : Queue => (⟨q.id, q.msgs ++ [msg]⟩ : Queue))
            = (fun q : Queue => q.id == qid) from rfl,
          hfind]
        simp [pubOf, hmsgs]
      · have hss : sid ≠ sid' := fun hc => hs hc.symm
        rw [queueMsgs,
          show (b.applyBOp (.publish sid' msg)).subscribers
              = publishTo b.subscribers sid' msg from rfl,
          lookupQueues_publishTo_other msg hss, hl, Option.some_bind, hfind]
        simp [pubOf, hmsgs, hs]
    | cancel sid' qid' =>
      by_cases hs : sid' = sid
      · subst hs
        have hqq : qid' ≠ qid := fun hc => hnc (by rw [hc])
        have hq0id : q0.id = qid := by
          have := List.find?_some hfind
          simpa using this
        have hq0f : (q0.id != qid') = true := by
          rw [bne_iff_ne, hq0id]
          exact hqq.symm
        have hq0mem : q0 ∈ qs.filter (fun q => q.id != qid') :=
          List.mem_filter.mpr ⟨List.mem_of_find?_eq_some hfind, hq0f⟩
        have hne : (qs.filter (fun q => q.id != qid')).isEmpty = false :=
          List.isEmpty_eq_false.mpr (List.ne_nil_of_mem hq0mem)
        rw [queueMsgs,
          show (b.applyBOp (.cancel sid' qid')).subscribers
              = cancelIn b.subscribers sid' qid' from rfl,
          lookupQueues_cancelIn_self_nonempty qid' hl hne, Option.some_bind,
          find?_filter_of_imp ?himp, hfind]
        · simp [pubOf, hmsgs]
        case himp =>
          intro a ha
          have : a.id = qid := by simpa using ha
          rw [bne_iff_ne, this]
          exact hqq.symm
      · have hss : sid ≠ sid' := fun hc => hs hc.symm
        rw [queueMsgs,
          show (b.applyBOp (.cancel sid' qid')).subscribers
              = cancelIn b.subscribers sid' qid' from rfl,
          lookupQueues_cancelIn_other _ hss, hl, Option.some_bind, hfind]
        simp [pubOf, hmsgs]

/-- A registered queue not cancelled during a run of broker steps ends
holding its old messages followed by exactly the messages those steps
publish to its session, in publish order. -/
theorem queueMsgs_runBOps {b : EventBroker} {sid : String} {qid : Nat}
    {m : List String} (ops : List BrokerOp)
    (hq : queueMsgs b sid qid = some m)
    (hnc : BrokerOp.cancel sid qid ∉ ops) :
    queueMsgs (b.runBOps ops) sid qid = some (m ++ publishedTo sid ops) := by
  induction ops generalizing b m with
  | nil => simpa [EventBroker.runBOps, publishedTo] using hq
  | cons op ops ih =>
    have hop : op ≠ .cancel sid qid := fun hc =>
      hnc (hc ▸ List.mem_cons_self _ _)
    have hops : BrokerOp.cancel sid qid ∉ ops := fun hc =>
      hnc (List.mem_cons_of_mem _ hc)
    rw [EventBroker.runBOps, ih (queueMsgs_applyBOp op hq hop) hops]
    cases hp : pubOf sid op with
    | none => simp [publishedTo, List.filterMap_cons, hp]
    | some x => simp [publishedTo, List.filterMap_cons, hp]

theorem lookupQueues_mem {l : List (String × List Queue)} {sid : String}
    {qs : List Queue} (h : lookupQueues l sid = some qs) : (sid, qs) ∈ l := by
  induction l with
  | nil => simp [lookupQueues] at h
  | cons p rest ih =>
    obtain ⟨k, qs'⟩ := p
    by_cases hk : k = sid
    · subst hk
      simp [lookupQueues] at h
      subst h
      simp
    · simp [lookupQueues, hk] at h
      simp [ih h]

/-- Registration hands the new subscriber a queue that starts empty: the
fresh id is not taken by any already-registered queue of the session. -/
theorem queueMsgs_subscribe_fresh {b : EventBroker} (sid : String)
    (hb : b.IdBound) :
    queueMsgs (b.subscribe sid).1 sid b.next_qid = some [] := by
  rw [queueMsgs,
    show (b.subscribe sid).1.subscribers
        = addQueue b.subscribers sid ⟨b.next_qid, []⟩ from rfl]
  cases hl : lookupQueues b.subscribers sid with
  | none =>
    rw [lookupQueues_addQueue_self_none _ hl, Option.some_bind]
    simp [List.find?]
  | some qs =>
    rw [lookupQueues_addQueue_self_some _ hl, Option.some_bind,
      List.find?_append]
    have hnone : qs.find? (fun q => q.id == b.next_qid) = none := by
      rw [List.find?_eq_none]
      intro x hx
      have hlt := hb (sid, qs) (lookupQueues_mem hl) x hx
      simp only [beq_iff_eq]
      exact Nat.ne_of_lt hlt
    rw [hnone]
    simp [List.find?]

/-- C6: over any trace from the fresh broker, the queue registered by a
`subscribe(S)` — placed between a prefix `ops1` and a suffix `ops2` of
broker steps, and not cancelled within `ops2` — ends holding exactly the
payloads published to `S` after the registration (`publishedTo sid ops2`),
in publish order: it receives every later publish to its session, in
order, and never a payload whose publish completed before it
subscribed. -/
theorem subscriber_receives_exactly_later_publishes
    (ops1 ops2 : List BrokerOp) (sid : String)
    (hnc : BrokerOp.cancel sid (EventBroker.init.runBOps ops1).next_qid ∉ ops2) :
    queueMsgs
        (((EventBroker.init.runBOps ops1).subscribe sid).1.runBOps ops2) sid
        (EventBroker.init.runBOps ops1).next_qid
      = some (publishedTo sid ops2) := by
  have hb : (EventBroker.init.runBOps ops1).IdBound :=
    idBound_runBOps idBound_init ops1
  have hfresh := queueMsgs_subscribe_fresh sid hb
  simpa using queueMsgs_runBOps ops2 hfresh hnc

/-- Witness for C6: `"x"` is published before the subscription, `"y"`
after; the subscriber's queue ends holding exactly `["y"]`. -/
theorem subscriber_receives_exactly_later_publishes_witness :
    queueMsgs
        (((EventBroker.init.runBOps [BrokerOp.publish "s" "x"]).subscribe
            "s").1.runBOps [BrokerOp.publish "s" "y"]) "s"
        (EventBroker.init.runBOps [BrokerOp.publish "s" "x"]).next_qid
      = some ["y"] :=
  subscriber_receives_exactly_later_publishes
    [BrokerOp.publish "s" "x"] [BrokerOp.publish "s" "y"] "s" (by decide)

/-- One subscribe-then-cancel cycle on a session. -/
def cycleSC (b : EventBroker) (sid : String) : EventBroker :=
  (b.subscribe sid).1.cancel sid (b.subscribe sid).2

/-- Iterate `n` subscribe-then-cancel cycles on a session. -/
def cyclesSC : Nat → EventBroker → String → EventBroker
  | 0, b, _ => b
  | n + 1, b, sid => cyclesSC n (cycleSC b sid) sid

theorem lookupQueues_eq_none_of_not_mem {l : List (String × List Queue)}
    {sid : String} (h : sid ∉ l.map Prod.fst) : lookupQueues l sid = none := by
  induction l with
  | nil => rfl
  | cons p rest ih =>
    obtain ⟨k, qs⟩ := p
    rw [List.map_cons] at h
    have h1 : sid ≠ k := fun hc => h (hc ▸ List.mem_cons_self _ _)
    have h2 : sid ∉ rest.map Prod.fst := fun hc => h (List.mem_cons_of_mem _ hc)
    have hk : ¬ k = sid := fun hc => h1 hc.symm
    simp [lookupQueues, hk, ih h2]

theorem addQueue_absent {l : List (String × List Queue)} {sid : String}
    (q : Queue) (h : lookupQueues l sid = none) :
    addQueue l sid q = l ++ [(sid, [q])] := by
  induction l with
  | nil => rfl
  | cons p rest ih =>
    obtain ⟨k, qs⟩ := p
    by_cases hk : k = sid
    · simp [lookupQueues, hk] at h
    · simp [lookupQueues, hk] at h
      simp [addQueue, hk, ih h]

theorem cancelIn_append_absent {l : List (String × List Queue)} {sid : String}
    (q : Queue) (h : lookupQueues l sid = none) :
    cancelIn (l ++ [(sid, [q])]) sid q.id = l := by
  induction l with
  | nil => simp [cancelIn, List.filter]
  | cons p rest ih =>
    obtain ⟨k, qs⟩ := p
    by_cases hk : k = sid
    · simp [lookupQueues, hk] at h
    · simp [lookupQueues, hk] at h
      simp [cancelIn, hk, ih h]

/-- A subscribe/cancel cycle on a session with no current subscribers
restores the subscriber map exactly. -/
theorem cycleSC_subscribers {b : EventBroker} {sid : String}
    (h : lookupQueues b.subscribers sid = none) :
    (cycleSC b sid).subscribers = b.subscribers := by
  rw [show (cycleSC b sid).subscribers
      = cancelIn (addQueue b.subscribers sid ⟨b.next_qid, []⟩) sid b.next_qid
      from rfl,
    addQueue_absent _ h]
  exact cancelIn_append_absent ⟨b.next_qid, []⟩ h

theorem queueMsgs_cancelIn {l : List (String × List Queue)}
    (hnd : (l.map Prod.fst).Nodup) (sid : String) (qid : Nat) :
    (lookupQueues (cancelIn l sid qid) sid).bind
        (fun qs => (qs.find? (fun q => q.id == qid)).map Queue.msgs)
      = none := by
  induction l with
  | nil => rfl
  | cons p rest ih =>
    obtain ⟨k, qs⟩ := p
    simp at hnd
    by_cases hk : k = sid
    · subst hk
      by_cases he : (qs.filter (fun q => q.id != qid)).isEmpty
      · rw [show cancelIn ((k, qs) :: rest) k qid = rest by simp [cancelIn, he]]
        rw [lookupQueues_eq_none_of_not_mem (by simpa using hnd.1)]
        rfl
      · rw [show cancelIn ((k, qs) :: rest) k qid
            = (k, qs.filter (fun q => q.id != qid)) :: rest
            by simp [cancelIn, he]]
        rw [show lookupQueues ((k, qs.filter (fun q => q.id != qid)) :: rest) k
            = some (qs.filter (fun q => q.id != qid)) by simp [lookupQueues]]
        rw [Option.some_bind]
        have hf : (qs.filter (fun q => q.id != qid)).find?
            (fun q => q.id == qid) = none := by
          rw [List.find?_eq_none]
          intro x hx
          have := (List.mem_filter.mp hx).2
          simp only [beq_iff_eq]
          exact bne_iff_ne.mp this
        rw [hf]
        rfl
    · rw [show cancelIn ((k, qs) :: rest) sid qid
          = (k, qs) :: cancelIn rest sid qid by simp [cancelIn, hk]]
      rw [show lookupQueues ((k, qs) :: cancelIn rest sid qid) sid
          = lookupQueues (cancelIn rest sid qid) sid by simp [lookupQueues, hk]]
      exact ih hnd.2

/-- C9: cancellation deterministically deregisters — with unique session
keys (as in a Python dict), after `cancel(S, q)` the broker no longer
holds queue `q` for `S`; and any number of subscribe-then-cancel cycles
on a session with no other subscribers leaves the subscriber map exactly
as it was: the session's entry is removed entirely, and no state
accumulates across repeated cycles. -/
theorem cancel_deregisters_and_cycles_leak_free (b : EventBroker)
    (sid : String) (qid : Nat) (n : Nat) :
    ((b.subscribers.map Prod.fst).Nodup →
      queueMsgs (b.cancel sid qid) sid qid = none) ∧
    (lookupQueues b.subscribers sid = none →
      (cyclesSC n b sid).subscribers = b.subscribers ∧
      lookupQueues (cyclesSC n b sid).subscribers sid = none) := by
  constructor
  · intro hnd
    exact queueMsgs_cancelIn hnd sid qid
  · intro h
    induction n generalizing b with
    | zero => exact ⟨rfl, h⟩
    | succ n ih =>
      have hc := cycleSC_subscribers h
      have h' : lookupQueues (cycleSC b sid).subscribers sid = none := by
        rw [hc]; exact h
      obtain ⟨h1, h2⟩ := ih (cycleSC b sid) h'
      exact ⟨by rw [show cyclesSC (n + 1) b sid
          = cyclesSC n (cycleSC b sid) sid from rfl, h1, hc], by
        rw [show cyclesSC (n + 1) b sid
          = cyclesSC n (cycleSC b sid) sid from rfl]; exact h2⟩

/-- Witness for C9: cancelling the lone queue of `"s"` leaves no queue
registered, and three subscribe/cancel cycles on the fresh broker leave
the subscriber map empty. -/
theorem cancel_deregisters_and_cycles_leak_free_witness :
    queueMsgs ((⟨[("s", [⟨0, []⟩])], 1⟩ : EventBroker).cancel "s" 0) "s" 0
      = none ∧
    ((cyclesSC 3 EventBroker.init "s").subscribers
        = EventBroker.init.subscribers ∧
      lookupQueues (cyclesSC 3 EventBroker.init "s").subscribers "s" = none) :=
  ⟨(cancel_deregisters_and_cycles_leak_free ⟨[("s", [⟨0, []⟩])], 1⟩ "s" 0 0).1
      (by decide),
   (cancel_deregisters_and_cycles_leak_free EventBroker.init "s" 0 3).2 rfl⟩

end ComputerUseDemo
